import Mathlib

/-!
Verification of the conversational-context core of the PocketLlama repository:
the Context Window Manager (`app/utils/logger.ts`, `ContextWindowManager`),
the Inference Orchestrator (`app/services/InferenceEngine.ts`, `InferenceEngine`)
and the Power-Aware Admission Controller
(`app/services/BatteryOptimizationService.ts`, `BatteryOptimizationService`).

The TypeScript classes are embedded shallowly: class state becomes a structure,
methods become pure functions from state to state, `async` methods that await an
external native call take the outcome of that call as an explicit argument, and
thrown exceptions become `Except String`.  JavaScript numbers are modelled as
exact rationals or reals (`Math.sqrt` forces `Real`); machine 32-bit wrapping in
the string hash is modelled explicitly on `Int`.  Strings are Lean `String`s and
the JavaScript regular-expression replacements used by the source are translated
match-by-match into recursive character-list functions.
-/

deriving instance DecidableEq for Except

namespace CWM

/-- `Message` record from `app/store/appStore.ts`: `{id, role, content, timestamp,
embedding?}`.  `role` is kept as a plain string, the optional `embedding : number[]`
becomes `Option (List Real)`. -/
structure Message where
  id : String
  role : String
  content : String
  timestamp : Nat
  embedding : Option (List Real)

/-- `MODEL_CONSTANTS.SLIDING_WINDOW_SIZE: 10` from `app/constants/models.ts`
(staged as the segment after the document separator in
`src/app/store/appStore.ts`, line 110). -/
def SLIDING_WINDOW_SIZE : Nat := 10

/-- `MODEL_CONSTANTS.ARCHIVED_MESSAGES_TO_RETRIEVE: 3` from
`app/constants/models.ts` (staged as the segment after the document separator in
`src/app/store/appStore.ts`, line 111): the default `topK` of
`retrieveRelevantContext`. -/
def ARCHIVED_MESSAGES_TO_RETRIEVE : Nat := 3

/-- The two private arrays of `ContextWindowManager`. -/
structure ManagerState where
  activeWindow : List Message
  archivedMessages : List Message

/-- The empty manager (both arrays start `[]`). -/
def initialManager : ManagerState := ⟨[], []⟩

/-- `manageWindow` (logger.ts lines 63-76): if the active window exceeds
`SLIDING_WINDOW_SIZE`, splice the oldest `length - max` messages off the front and
push them onto the end of `archivedMessages`. -/
def manageWindow (s : ManagerState) : ManagerState :=
  let maxMessages := SLIDING_WINDOW_SIZE
  if s.activeWindow.length > maxMessages then
    let n := s.activeWindow.length - maxMessages
    { activeWindow := s.activeWindow.drop n
      archivedMessages := s.archivedMessages ++ s.activeWindow.take n }
  else s

/-- `addMessage` (logger.ts lines 54-57): push onto the active window, then run
window maintenance. -/
def addMessage (s : ManagerState) (m : Message) : ManagerState :=
  manageWindow { s with activeWindow := s.activeWindow ++ [m] }

end CWM

namespace CWM

/-!
`getActiveWindow` and `getArchivedMessages` (logger.ts lines 81-90) return
`[...this.activeWindow]` and `[...this.archivedMessages]`: fresh array copies.
To state the aliasing consequence of the spread operator we model JavaScript
array identity explicitly: a heap maps array identifiers to contents, the
manager holds the identifiers of its two private arrays, and each getter
allocates a fresh identifier holding a copy of the private contents.  A caller
mutation is an arbitrary write to the identifier the getter returned.
-/

/-- A heap of JavaScript arrays of messages: contents per identifier plus the
next fresh identifier. -/
structure ArrayHeap where
  store : Nat → List Message
  next : Nat

/-- Write `v` into the array identified by `id`. -/
def writeArray (h : ArrayHeap) (id : Nat) (v : List Message) : ArrayHeap :=
  { h with store := fun i => if i = id then v else h.store i }

/-- The manager with its two private arrays held by reference.  A well-formed
state has both identifiers below the heap frontier (hypotheses of the theorem). -/
structure ManagerRefs where
  heap : ArrayHeap
  activeId : Nat
  archivedId : Nat

/-- Allocate a fresh array holding a copy of the array `src` (the semantics of
`[...arr]`): the new identifier is the heap frontier. -/
def allocCopy (h : ArrayHeap) (src : Nat) : Nat × ArrayHeap :=
  (h.next, { store := fun i => if i = h.next then h.store src else h.store i
             next := h.next + 1 })

/-- `getActiveWindow` (logger.ts lines 81-83): `return [...this.activeWindow]`. -/
def getActiveWindow (s : ManagerRefs) : Nat × ManagerRefs :=
  ((allocCopy s.heap s.activeId).1,
    { heap := (allocCopy s.heap s.activeId).2
      activeId := s.activeId, archivedId := s.archivedId })

/-- `getArchivedMessages` (logger.ts lines 88-90): `return [...this.archivedMessages]`. -/
def getArchivedMessages (s : ManagerRefs) : Nat × ManagerRefs :=
  ((allocCopy s.heap s.archivedId).1,
    { heap := (allocCopy s.heap s.archivedId).2
      activeId := s.activeId, archivedId := s.archivedId })

end CWM

namespace IE

/-!
Shallow embedding of `InferenceEngine` (`app/services/InferenceEngine.ts`).
JavaScript strings are Lean `String`s over their character lists; the JavaScript
whitespace class and `trim` are modelled on the ASCII whitespace characters
(the Unicode space characters JavaScript additionally accepts do not occur in
any input considered here).  Each regular-expression `replace` used by the
source is translated into a recursive function with the exact match semantics
of the pattern, including the unescaped alternation bar in the
`<|endoftext|>` pattern of `cleanResponse`.
-/

/-- ASCII part of the JavaScript whitespace class `\s` (space, tab, newline,
carriage return, vertical tab, form feed). -/
def isJsWS (c : Char) : Bool :=
  c = ' ' || c = '\t' || c = '\n' || c = '\r' || c.toNat = 11 || c.toNat = 12

/-- JavaScript `String.prototype.trim` on character lists. -/
def trimC (cs : List Char) : List Char :=
  ((cs.dropWhile isJsWS).reverse.dropWhile isJsWS).reverse

/-- JavaScript `String.prototype.trim`. -/
def jsTrim (s : String) : String := String.mk (trimC s.data)

/-- `replace(/TOK\s*$/g, '')` for a pattern `TOK` without metacharacters: the
single possible match is a final occurrence of `TOK` followed only by
whitespace; it is removed together with that whitespace. -/
def stripTrailingTok (tok cs : List Char) : List Char :=
  let r := cs.reverse.dropWhile isJsWS
  if tok.reverse.isPrefixOf r then (r.drop tok.length).reverse else cs

/-- `replace(new RegExp('<|endoftext|>\\s*$', 'g'), '')` from `cleanResponse`:
since the bar is not escaped, the pattern is the alternation of `<`,
`endoftext` and `>\s*$`, so the global replace removes every `<`, every
occurrence of `endoftext`, and a final `>` together with any whitespace that
follows it to the end of the string. -/
def eotScan : List Char → List Char
  | [] => []
  | '<' :: rest => eotScan rest
  | 'e' :: 'n' :: 'd' :: 'o' :: 'f' :: 't' :: 'e' :: 'x' :: 't' :: rest => eotScan rest
  | c :: rest => if c = '>' && rest.all isJsWS then [] else c :: eotScan rest

/-- One emitted group of `collapseGo`: a maximal run of at least `minRun`
characters of the class is replaced by `repl`, a shorter run is kept. -/
def emitRun (minRun : Nat) (repl run : List Char) : List Char :=
  if run.length ≥ minRun then repl else run

/-- Single pass of `replace(/P{minRun,}/g, repl)` for a character class `P`,
carrying the pending run of class characters in `run`. -/
def collapseGo (p : Char → Bool) (minRun : Nat) (repl : List Char) :
    List Char → List Char → List Char
  | run, [] => emitRun minRun repl run
  | run, c :: rest =>
    if p c then collapseGo p minRun repl (run ++ [c]) rest
    else emitRun minRun repl run ++ c :: collapseGo p minRun repl [] rest

/-- `replace(/P{minRun,}/g, repl)` for a character class `P`: every maximal run
of at least `minRun` characters satisfying `p` is replaced by `repl`; shorter
runs are kept. -/
def collapseRuns (p : Char → Bool) (minRun : Nat) (repl : List Char) (cs : List Char) :
    List Char :=
  collapseGo p minRun repl [] cs

/-- `cleanResponse` (InferenceEngine.ts lines 434-463): trim; strip a trailing
`</s>` (with trailing whitespace); apply the (unescaped) `<|endoftext|>`
replace; strip a leading `<|assistant|>` and re-trim; collapse runs of 4 or
more newlines to 3 and runs of 3 or more spaces/tabs to 2; final trim. -/
def cleanResponse (response : String) : String :=
  if response = "" then ""
  else
    let c0 := trimC response.data
    let c1 := stripTrailingTok ("</s>").data c0
    let c2 := eotScan c1
    let c3 := if ("<|assistant|>").data.isPrefixOf c2
      then trimC (c2.drop ("<|assistant|>").length) else c2
    let c4 := collapseRuns (fun c => c = '\n') 4 ['\n', '\n', '\n'] c3
    let c5 := collapseRuns (fun c => c = ' ' || c = '\t') 3 [' ', ' '] c4
    String.mk (trimC c5)

/-- Index of the last position `i < n` satisfying `p`, scanning forward and
keeping the latest hit (the shape of the `while ((match = re.exec(...)))` loop
and of `lastIndexOf`). -/
def lastIdxSat (p : Nat → Bool) (n : Nat) : Option Nat :=
  (List.range n).foldl (fun best i => if p i then some i else best) none

/-- Sentence-ending punctuation of the `/[.!?][\s\n]/g` pattern. -/
def isSentPunct (c : Char) : Bool := c = '.' || c = '!' || c = '?'

/-- `replace(/\s+\S+$/, '')`: remove a final whitespace-run-plus-word; no match
(and no change) when the string has no whitespace before its final word or ends
in whitespace. -/
def dropTrailingWordRun (cs : List Char) : List Char :=
  if (cs.reverse.takeWhile (fun c => !(isJsWS c))).isEmpty
      || (cs.reverse.dropWhile (fun c => !(isJsWS c))).isEmpty then cs
  else ((cs.reverse.dropWhile (fun c => !(isJsWS c))).dropWhile isJsWS).reverse

/-- One step of the `/[.!?][\s\n]/g` exec loop of `truncateAtSentenceBoundary`:
position `i` starts a sentence-boundary match whose end `i + 2` is within the
character budget. -/
def sentScanPred (cs : List Char) (maxChars : Nat) (i : Nat) : Bool :=
  i + 1 < cs.length && isSentPunct (cs.getD i 'x') && isJsWS (cs.getD (i + 1) 'x')
    && i + 2 ≤ maxChars

/-- `lastIndexOf(' ', maxChars)` match condition: a space at a position at or
before the budget. -/
def spaceScanPred (cs : List Char) (maxChars : Nat) (j : Nat) : Bool :=
  cs.getD j 'x' = ' ' && j ≤ maxChars

/-- The IEEE-754 double nearest to the source literal `0.7`, scaled by `2^52`:
`double(0.7) = 3152519739159347 / 2^52` (the exact product `0.7 * 2^52 =
3152519739159347.2` rounds down). -/
def double07num : Nat := 3152519739159347

/-- The excess of the bit length of `n` over 53 (0 when `n` fits into a double
significand): the scale at which an exact product must be rounded to double
precision.  Correct for every `n < 2^117`, which covers every budget a
JavaScript string can reach. -/
def flShift (n : Nat) : Nat :=
  (List.range 64).foldl (fun s k => if 2 ^ (53 + k) ≤ n then k + 1 else s) 0

/-- The IEEE-double product `maxChars * 0.7` of the source, scaled by `2^52` so
it is an exact natural number: the exact product `B * double07num` rounded to
53 significant bits, round to nearest, ties to even.  (`B` itself is exactly
representable for every reachable budget, so this is the only rounding step;
the double `maxChars * 0.7` equals `flMul07num B / 2^52` exactly.) -/
def flMul07num (B : Nat) : Nat :=
  if flShift (B * double07num) = 0 then B * double07num
  else
    (if (B * double07num) % 2 ^ flShift (B * double07num)
          > 2 ^ flShift (B * double07num) / 2
        ∨ ((B * double07num) % 2 ^ flShift (B * double07num)
            = 2 ^ flShift (B * double07num) / 2
          ∧ (B * double07num) / 2 ^ flShift (B * double07num) % 2 = 1)
      then (B * double07num) / 2 ^ flShift (B * double07num) + 1
      else (B * double07num) / 2 ^ flShift (B * double07num))
      * 2 ^ flShift (B * double07num)

/-- `truncateAtSentenceBoundary` (InferenceEngine.ts lines 469-528).  The token
estimate `Math.ceil(length / 4)` is `(length + 3) / 4`; the branch test
`wordBoundaryIndex > maxChars * 0.7` compares the exact integer
`wordBoundaryIndex` against the IEEE-double product `maxChars * 0.7`, i.e.
`j > flMul07num maxChars / 2^52`, written over `Nat` as
`j * 2^52 > flMul07num maxChars`.  The double product differs from the exact
`0.7 * maxChars` whenever rounding bites: `180 * 0.7 = 125.99999999999999
< 126`. -/
def truncateAtSentenceBoundary (response : String) (maxTokens : Nat) : String :=
  if response.data.length = 0 then response
  else if (response.data.length + 3) / 4 ≤ maxTokens then response
  else if response.data.length > maxTokens * 4 then
    match lastIdxSat (sentScanPred response.data (maxTokens * 4)) response.data.length with
    | some i => String.mk (trimC (response.data.take (i + 2)))
    | none =>
      match lastIdxSat (spaceScanPred response.data (maxTokens * 4)) response.data.length with
      | some j =>
        if j * 2 ^ 52 > flMul07num (maxTokens * 4) then
          String.mk (trimC (response.data.take j))
        else String.mk (dropTrailingWordRun (trimC (response.data.take (maxTokens * 4))))
      | none => String.mk (dropTrailingWordRun (trimC (response.data.take (maxTokens * 4))))
  else response

/-- Position `k` is the exclusive end of a sentence-boundary match of
`/[.!?][\s\n]/`: a sentence-ending character at `k - 2` immediately followed by
a whitespace character at `k - 1`. -/
def SentEndAt (cs : List Char) (k : Nat) : Bool :=
  2 ≤ k && k ≤ cs.length && isSentPunct (cs.getD (k - 2) 'x') && isJsWS (cs.getD (k - 1) 'x')

/-- Remove the trailing (partial) word: drop the final run of non-whitespace
characters. -/
def dropPartialWord (t : List Char) : List Char :=
  (t.reverse.dropWhile (fun c => !(isJsWS c))).reverse

/-- The truncation procedure exactly as claim C5 words it: if
`ceil(length/4) ≤ maxTokens` return the response unchanged; otherwise, with
budget `B = maxTokens*4`, (a) cut just after the latest sentence-ending
punctuation followed by whitespace whose end is at or before `B`; (b) else cut
at the latest space at or before `B`, only if that position is past `0.7*B`;
(c) else hard-cut at `B` and remove the trailing partial word.  (`findGreatest
.. = 0` encodes that no rule-(a) match exists, since a match end is `≥ 2`.) -/
def specTruncClaim (response : String) (maxTokens : Nat) : String :=
  let cs := response.data
  if (cs.length + 3) / 4 ≤ maxTokens then response
  else
    let B := maxTokens * 4
    let kA := Nat.findGreatest (fun k => SentEndAt cs k = true ∧ k ≤ B) B
    if kA ≠ 0 then String.mk (cs.take kA)
    else
      let jB := Nat.findGreatest (fun j => cs.getD j 'x' = ' ' ∧ j ≤ B) B
      if 10 * jB > 7 * B then String.mk (cs.take jB)
      else String.mk (dropPartialWord (cs.take B))

/-- Claim C5 amended to what the code does: every cut is additionally trimmed of
surrounding whitespace; the rule-(b) threshold is the IEEE-double product
`B * 0.7` (`flMul07num B / 2^52`) rather than the exact `0.7 * B`; and in the hard-cut
rule the final whitespace-delimited word is removed only when the trimmed cut
text still contains whitespace (a single word is kept whole). -/
def specTruncAmended (response : String) (maxTokens : Nat) : String :=
  if (response.data.length + 3) / 4 ≤ maxTokens then response
  else if Nat.findGreatest
      (fun k => SentEndAt response.data k = true ∧ k ≤ maxTokens * 4) (maxTokens * 4) ≠ 0 then
    String.mk (trimC (response.data.take (Nat.findGreatest
      (fun k => SentEndAt response.data k = true ∧ k ≤ maxTokens * 4) (maxTokens * 4))))
  else if (Nat.findGreatest
      (fun j => response.data.getD j 'x' = ' ' ∧ j ≤ maxTokens * 4) (maxTokens * 4)) * 2 ^ 52
      > flMul07num (maxTokens * 4) then
    String.mk (trimC (response.data.take (Nat.findGreatest
      (fun j => response.data.getD j 'x' = ' ' ∧ j ≤ maxTokens * 4) (maxTokens * 4))))
  else if (trimC (response.data.take (maxTokens * 4))).any isJsWS then
    String.mk ((((trimC (response.data.take (maxTokens * 4))).reverse.dropWhile
      (fun c => !(isJsWS c))).dropWhile isJsWS).reverse)
  else String.mk (trimC (response.data.take (maxTokens * 4)))

/-- Counterexample input for the rule-(a) trim divergence: a leading space and a
sentence boundary within budget. -/
def truncCounterA : String := " Hi there. aaaa bbbb cccc dddd eeee"

/-- Counterexample input for the rule-(b) float-threshold divergence at
`maxTokens = 45` (budget 180): the only space sits at index 126 with
`10 * 126 = 7 * 180` exactly, where `180 * 0.7` rounds to
`125.99999999999999`. -/
def truncCounterB : String :=
  String.mk (List.replicate 126 'a' ++ [' '] ++ List.replicate 24 'b' ++ ['\t']
    ++ List.replicate 28 'c' ++ List.replicate 31 'd')

/-- Counterexample input for the rule-(c) single-word divergence: one word far
beyond the budget. -/
def truncCounterC : String := String.mk (List.replicate 30 'a')

/-- Message roles of the engine-side `Message` interface. -/
inductive Role where
  | user
  | assistant
  | system
  deriving DecidableEq, BEq

/-- Engine-side `Message`: `{role, content}`. -/
structure Message where
  role : Role
  content : String
  deriving DecidableEq, BEq

/-- `generate` accepts `string | Message[]`. -/
inductive GenInput where
  | str (s : String)
  | msgs (l : List Message)
  deriving DecidableEq, BEq

/-- `InferenceOptions`: every field optional. -/
structure InferenceOptions where
  maxTokens : Option Nat := none
  temperature : Option Rat := none
  topP : Option Rat := none
  topK : Option Nat := none
  repeatPenalty : Option Rat := none
  stopSequences : Option (List String) := none
  deriving DecidableEq

/-- `Required<InferenceOptions>` after defaulting and clamping. -/
structure ResolvedOptions where
  maxTokens : Nat
  temperature : Rat
  topP : Rat
  topK : Nat
  repeatPenalty : Rat
  stopSequences : List String
  deriving DecidableEq

def DEFAULT_SYSTEM_PROMPT : String :=
  "You are a helpful, harmless, and honest assistant."

/-- The enhanced default stop sequences (InferenceEngine.ts lines 205-212). -/
def defaultStopSequences : List String :=
  ["</s>", "<|endoftext|>", "\n\n", ".\n", "?\n", "!\n"]

/-- Option normalization and clamping (InferenceEngine.ts lines 214-221):
temperature clamped to [0.1, 2.0], topP to [0.1, 1.0], repeatPenalty to at
least 1.0; defaults 128 / 0.7 / 0.9 / 40 / 1.1. -/
def resolveOptions (o : InferenceOptions) : ResolvedOptions :=
  { maxTokens := o.maxTokens.getD 128
    temperature := max (0.1 : Rat) (min (2.0 : Rat) (o.temperature.getD (0.7 : Rat)))
    topP := max (0.1 : Rat) (min (1.0 : Rat) (o.topP.getD (0.9 : Rat)))
    topK := o.topK.getD 40
    repeatPenalty := max (1.0 : Rat) (o.repeatPenalty.getD (1.1 : Rat))
    stopSequences := o.stopSequences.getD defaultStopSequences }

/-- The shapes in which the native result may arrive
(InferenceEngine.ts lines 383-415): a plain string, an object carrying the text
in `.text` / `.content` / `.response` / `.message`, or anything else, which is
inspected through its `String(result)` rendering. -/
inductive NativeResult where
  | plain (s : String)
  | textField (s : String)
  | contentField (s : String)
  | responseField (s : String)
  | messageField (s : String)
  | other (stringified : String)
  deriving DecidableEq, BEq

/-- The text payload carried by a native result shape. -/
def rawText : NativeResult → String
  | .plain s => s
  | .textField s => s
  | .contentField s => s
  | .responseField s => s
  | .messageField s => s
  | .other s => s

/-- Result normalization inside `generateWithTimeout` (lines 383-415): each
shape yields its payload, but a payload that trims to empty is rejected; the
fallback shape is additionally rejected when its rendering is `[object Object]`
or empty. -/
def normalizeResult (r : NativeResult) : Except String String :=
  match r with
  | .plain s =>
    if (jsTrim s).length = 0 then .error ("Model returned empty string") else .ok s
  | .textField s =>
    if (jsTrim s).length = 0 then .error ("Model returned empty text") else .ok s
  | .contentField s =>
    if (jsTrim s).length = 0 then .error ("Model returned empty content") else .ok s
  | .responseField s =>
    if (jsTrim s).length = 0 then .error ("Model returned empty response") else .ok s
  | .messageField s =>
    if (jsTrim s).length = 0 then .error ("Model returned empty message") else .ok s
  | .other s =>
    if s ≠ "" ∧ s ≠ "[object Object]" ∧ (jsTrim s).length ≠ 0
    then .ok s
    else .error ("Invalid response format from model")

/-- `lastUserMessage?.content || 'Hello'` of `generateMockResponse`
(lines 537-546). -/
def mockUserMessage (input : GenInput) : String :=
  match input with
  | .str s => s
  | .msgs l =>
    match (l.filter (fun m => m.role == Role.user)).getLast? with
    | some m => if m.content = "" then "Hello" else m.content
    | none => "Hello"

/-- The three canned mock responses (lines 549-553); apostrophes of the source
texts are spelled out, the interpolation of the first 50 characters of the user
message is kept exactly. -/
def mockResponses (userMessage : String) : Fin 3 → String
  | 0 => "I understand you are asking about \"" ++ userMessage.take 50
      ++ "...\". This is a mock response. To get real AI responses, please download the model."
  | 1 => "That is an interesting question! In mock mode, I cannot provide detailed answers. Please download the TinyLlama model for real AI responses."
  | 2 => "I would love to help with that! However, I am currently running in mock mode. Download the model to enable real AI capabilities."

/-- `generateMockResponse` (lines 533-567).  `Math.random()` is modelled by the
explicit choice `pick`; the response is cut to `maxTokens * 4` characters plus
an ellipsis when `options.maxTokens` is set, nonzero and exceeded. -/
def generateMockResponse (input : GenInput) (maxTokens : Option Nat) (pick : Fin 3) :
    String :=
  let response := mockResponses (mockUserMessage input) pick
  match maxTokens with
  | some mt =>
    if mt ≠ 0 ∧ response.length > mt * 4 then response.take (mt * 4) ++ "..." else response
  | none => response

/-- The `InferenceEngine` fields read or written by `generate`: `modelPath`,
`isInitialized`, `isGenerating`, and whether `this.context` is non-null. -/
structure EngineState where
  modelPath : Option String
  isInitialized : Bool
  isGenerating : Bool
  hasContext : Bool
  deriving DecidableEq

def notInitializedMsg : String :=
  "InferenceEngine not initialized. Call initialize() first."

def concurrencyMsg : String :=
  "Generation already in progress. Please wait for current generation to complete."

/-- `errorMessage.includes(pat)`. -/
def hasSubstr (s pat : String) : Bool := decide (pat.data <:+: s.data)

/-- The catch block of `generate` (lines 297-313) for a non-mock engine:
timeout-looking and memory-looking messages are replaced by fixed texts, any
other message is wrapped in a generic prefix. -/
def classifyGenError (m : String) : String :=
  if hasSubstr m ("timeout")
  then "Generation timed out. The model may be too slow or the prompt too long."
  else if hasSubstr m ("memory")
  then "Insufficient memory for generation. Try reducing maxTokens."
  else "Generation failed: " ++ m

/-- What a successful `generate` hands back: a cleaned real-engine text or a
synthetic canned (mock) text. -/
inductive GenOutput where
  | real (text : String)
  | mock (text : String)
  deriving DecidableEq

/-- `!input` (line 199): only the empty string is falsy, an array never is. -/
def inputFalsy : GenInput → Bool
  | .str p => p == ""
  | .msgs _ => false

/-- Lines 235-244: a bare string input is promoted to a one-turn message list
with the default system preamble; an array input is used as is. -/
def messagesOf (input : GenInput) : List Message :=
  match input with
  | .msgs l => l
  | .str p => [⟨Role.system, DEFAULT_SYSTEM_PROMPT⟩, ⟨Role.user, p⟩]

/-- Lines 257-268: guarantee a leading system message and drop whitespace-only
messages.  This is the list handed to the native session; since that call is
modelled by the explicit `native` outcome, the result of this preparation does
not reappear in `generateBody`. -/
def msgsForNative (l : List Message) : List Message :=
  (match l with
    | m :: _ =>
      if m.role == Role.system then l
      else ⟨Role.system, DEFAULT_SYSTEM_PROMPT⟩ :: l
    | [] => l).filter (fun m => m.content != "" && (jsTrim m.content).length != 0)

/-- The body of the `try` block of `generate` (lines 197-295).  The outcome of
the awaited native call is the explicit argument `native` (`.error` models the
call rejecting, e.g. by timeout); `pick` resolves `Math.random()` in the mock
path. -/
def generateBody (s : EngineState) (input : GenInput) (options : InferenceOptions)
    (native : Except String NativeResult) (pick : Fin 3) : Except String GenOutput :=
  if inputFalsy input then .error ("Input cannot be empty")
  else if s.modelPath = some ("mock") then
    .ok (.mock (generateMockResponse input (some (resolveOptions options).maxTokens) pick))
  else if s.hasContext = false then
    .error ("Model context not available. Reinitialize the engine.")
  else if (messagesOf input).length = 0 then .error ("Messages array cannot be empty")
  else if !((messagesOf input).any (fun m => m.role == Role.user)) then
    .error ("Messages must contain at least one user message")
  else
    match native with
    | .error e => .error e
    | .ok r =>
      match normalizeResult r with
      | .error e => .error e
      | .ok response =>
        if (jsTrim (cleanResponse response)).length = 0 then
          if (jsTrim response).length ≠ 0 then
            .ok (.real (truncateAtSentenceBoundary (jsTrim response)
              (resolveOptions options).maxTokens))
          else .ok (.mock (generateMockResponse input
            (some (resolveOptions options).maxTokens) pick))
        else .ok (.real (truncateAtSentenceBoundary (cleanResponse response)
          (resolveOptions options).maxTokens))

/-- `generate` (InferenceEngine.ts lines 181-317): reject synchronously when not
initialized or when a generation is in flight (both before any state change);
otherwise set the single-flight flag, run the body, map a body error through the
catch block (mock substitution only when the engine is in mock mode), and clear
the flag on every exit path (the `finally`). -/
def generate (s : EngineState) (input : GenInput) (options : InferenceOptions)
    (native : Except String NativeResult) (pick : Fin 3) :
    Except String GenOutput × EngineState :=
  if s.isInitialized = false then (.error notInitializedMsg, s)
  else if s.isGenerating = true then (.error concurrencyMsg, s)
  else
    let sFinal : EngineState := { s with isGenerating := false }
    match generateBody { s with isGenerating := true } input options native pick with
    | .ok out => (.ok out, sFinal)
    | .error e =>
      if s.modelPath = some ("mock")
      then (.ok (.mock (generateMockResponse input options.maxTokens pick)), sFinal)
      else (.error (classifyGenError e), sFinal)

end IE

namespace CWM

/-- The dot-product accumulation of `cosineSimilarity` (logger.ts lines 100-108);
the loop runs over equal-length vectors. -/
noncomputable def dotProd (a b : List Real) : Real :=
  ((a.zip b).map (fun p => p.1 * p.2)).sum

/-- `normA` / `normB` accumulation of `cosineSimilarity`: sum of squares. -/
noncomputable def sumSq (a : List Real) : Real := (a.map (fun x => x * x)).sum

/-- `cosineSimilarity` (logger.ts lines 95-111): throws on a length mismatch,
otherwise `dot / (sqrt(normA) * sqrt(normB))`.  The JavaScript floats are
idealized as reals, which makes the definition noncomputable (`Real.sqrt`). -/
noncomputable def cosineSimilarity (a b : List Real) : Except String Real :=
  if a.length ≠ b.length then .error ("Embeddings must have the same length")
  else .ok (dotProd a b / (Real.sqrt (sumSq a) * Real.sqrt (sumSq b)))

/-- The sort comparator `(a, b) => b.score - a.score` of
`retrieveRelevantContext`: `a` is placed no later than `b` exactly when its
score is at least `b`'s. -/
def scoreGE (x y : Message × Real) : Prop := y.2 ≤ x.2

noncomputable instance : DecidableRel scoreGE := fun x y => Real.decidableLE y.2 x.2

instance : IsTotal (Message × Real) scoreGE := ⟨fun a b => le_total b.2 a.2⟩

instance : IsTrans (Message × Real) scoreGE := ⟨fun _ _ _ h1 h2 => le_trans h2 h1⟩

/-- `Array.prototype.map` over a callback that may throw: the first exception
propagates out of the whole map. -/
def mapME {α β : Type} (f : α → Except String β) : List α → Except String (List β)
  | [] => .ok []
  | a :: rest =>
    match f a with
    | .error e => .error e
    | .ok b =>
      match mapME f rest with
      | .error e => .error e
      | .ok bs => .ok (b :: bs)

/-- The `scoredMessages` entry for one message (logger.ts lines 132-135):
`{message, score: cosineSimilarity(queryEmbedding, message.embedding!)}`. -/
noncomputable def scoreMsg (q : List Real) (m : Message) : Except String (Message × Real) :=
  match cosineSimilarity q (m.embedding.getD []) with
  | .error e => .error e
  | .ok sc => .ok (m, sc)

/-- `retrieveRelevantContext` (logger.ts lines 119-140): empty result when there
are no archived messages or none carries an embedding; otherwise score the
embedded archived messages, sort by descending score (ECMAScript `sort` is
stable, modelled by the stable `insertionSort`), and return the first `topK`
messages.  A cosine length mismatch propagates as the thrown error. -/
noncomputable def retrieveRelevantContext (s : ManagerState) (queryEmbedding : List Real)
    (topK : Nat) : Except String (List Message) :=
  if s.archivedMessages.length = 0 then .ok []
  else if (s.archivedMessages.filter (fun m => m.embedding.isSome)).length = 0 then .ok []
  else
    match mapME (scoreMsg queryEmbedding)
        (s.archivedMessages.filter (fun m => m.embedding.isSome)) with
    | .error e => .error e
    | .ok scored => .ok (((scored.insertionSort scoreGE).take topK).map (fun p => p.1))

/-- `buildContext` (logger.ts lines 146-159): when a non-empty query embedding
is supplied, the relevant archived messages (default `topK`) are placed before
the entire active window; otherwise the context is just the active window.
`currentQuery` is accepted and unused, as in the source. -/
noncomputable def buildContext (s : ManagerState) (currentQuery : String)
    (queryEmbedding : Option (List Real)) : Except String (List Message) :=
  match queryEmbedding with
  | some q =>
    if q.length > 0 then
      match retrieveRelevantContext s q ARCHIVED_MESSAGES_TO_RETRIEVE with
      | .error e => .error e
      | .ok rel => .ok (rel ++ s.activeWindow)
    else .ok s.activeWindow
  | none => .ok s.activeWindow

/-- ASCII fragment of the JavaScript whitespace class used by
`split(/\s+/)` and the manager's embedding pipeline (same set as the engine
side). -/
def isWS (c : Char) : Bool :=
  c = ' ' || c = '\t' || c = '\n' || c = '\r' || c.toNat = 11 || c.toNat = 12

/-- `text.split(/\s+/)` on character lists: separators are maximal whitespace
runs; a leading or trailing separator contributes an empty token, and the empty
string yields the single empty token, exactly as in ECMAScript. -/
def jsSplitAux (cur : List Char) (cs : List Char) : List (List Char) :=
  match cs with
  | [] => [cur.reverse]
  | c :: rest =>
    if isWS c then cur.reverse :: jsSplitAux [] (rest.dropWhile isWS)
    else jsSplitAux (c :: cur) rest
termination_by cs.length
decreasing_by
  · have hle : (rest.dropWhile isWS).length ≤ rest.length := by
      induction rest with
      | nil => simp
      | cons a t ih =>
        rw [List.dropWhile_cons]
        split
        · exact Nat.le_succ_of_le ih
        · simp
    simp
    omega
  · simp

/-- `text.split(/\s+/)`. -/
def jsSplitWS (cs : List Char) : List (List Char) := jsSplitAux [] cs

/-- `ToInt32`: the `hash & hash` (and `<<`) wrap of JavaScript 32-bit integer
conversion. -/
def toInt32 (z : Int) : Int := (z + 2 ^ 31) % 2 ^ 32 - 2 ^ 31

/-- One character step of `simpleHash` (logger.ts lines 204-208):
`hash = ((hash << 5) - hash) + char; hash = hash & hash`.  The shift operates
on (and wraps to) 32-bit integers; the subtraction and addition are exact. -/
def hashStep (h : Int) (c : Char) : Int := toInt32 (toInt32 (h * 32) - h + c.toNat)

/-- `simpleHash` (logger.ts lines 202-210): fold the step over the characters
starting from 0, then `Math.abs`. -/
def simpleHash (w : List Char) : Nat := (w.foldl hashStep 0).natAbs

/-- `embedding[index] += 1`. -/
def incAt : List Nat → Nat → List Nat
  | [], _ => []
  | c :: rest, 0 => (c + 1) :: rest
  | c :: rest, n + 1 => c :: incAt rest n

/-- The 128 bucket counts of `generateEmbedding` (logger.ts lines 185-192):
lowercase, split on whitespace, hash each token mod 128 and increment that
bucket of a 128-length zero vector. -/
def bucketCounts (text : String) : List Nat :=
  (jsSplitWS (text.data.map Char.toLower)).foldl
    (fun v w => incAt v (simpleHash w % 128)) (List.replicate 128 0)

/-- The Euclidean norm of the count vector
(`Math.sqrt(embedding.reduce((sum, val) => sum + val * val, 0))`). -/
noncomputable def embNorm (text : String) : Real :=
  Real.sqrt (((bucketCounts text).map (fun b => (Nat.cast b : Real) * Nat.cast b)).sum)

/-- `generateEmbedding` (logger.ts lines 182-197): the bucket counts divided by
`norm || 1` where `norm` is the Euclidean norm of the count vector. -/
noncomputable def generateEmbedding (text : String) : List Real :=
  (bucketCounts text).map
    (fun c => (Nat.cast c : Real) / (if embNorm text = 0 then 1 else embNorm text))

/-- Eleven concrete messages for the closed window instantiation. -/
def msList11 : List Message :=
  (List.range 11).map (fun n => (⟨"m", "user", "c", n, none⟩ : Message))

/-- A concrete two-array heap state for the closed aliasing instantiation. -/
def refs0 : ManagerRefs := ⟨⟨fun _ => [], 2⟩, 0, 1⟩

/-- Concrete messages for the closed instantiations below. -/
def msgNoEmb : Message := ⟨"m1", "user", "hello", 0, none⟩

def msgEmptyEmb : Message := ⟨"m2", "assistant", "old", 1, some []⟩

def msgActive : Message := ⟨"m3", "user", "now", 2, none⟩

end CWM

namespace Battery

/-- One entry of the `pendingInferenceQueue`
(BatteryOptimizationService.ts lines 35-40): the prompt together with the
identity of the waiting caller (its `resolve`/`reject` pair). -/
structure PendingItem where
  prompt : String
  callerId : Nat

/-- The mutable state of `BatteryOptimizationService` relevant to batching: the
pending queue and whether the flush timer (`batchInterval`) is armed. -/
structure BatchQueueState where
  pendingInferenceQueue : List PendingItem
  batchIntervalArmed : Bool

/-- `{maxBatchSize, maxWaitTimeMs}`. -/
structure BatchConfig where
  maxBatchSize : Nat
  maxWaitTimeMs : Nat

/-- How one queued caller's promise is settled.  `resolved (results.get? i)`
models `item.resolve(results[index])` (an out-of-range index resolves with
`undefined`, hence the `Option`). -/
inductive Settlement where
  | resolved (v : Option String)
  | rejected (err : String)
  deriving DecidableEq

/-- `processBatch` (BatteryOptimizationService.ts lines 181-211): clear the
timer; if the queue is empty do nothing; otherwise take the whole queue as the
batch, empty the queue, call `inferenceCallback` once on the batch's prompts,
and settle every batch member by index from that single outcome (all rejected
with the same error if the callback fails).  Besides the new state we return
the settlement of every caller and the list of argument lists the executor was
invoked on. -/
def processBatch (st : BatchQueueState)
    (inferenceCallback : List String → Except String (List String)) :
    BatchQueueState × List (Nat × Settlement) × List (List String) :=
  if st.pendingInferenceQueue.length = 0 then
    ({ st with batchIntervalArmed := false }, [], [])
  else
    let batch := st.pendingInferenceQueue
    let prompts := batch.map (fun it => it.prompt)
    let st1 : BatchQueueState := { pendingInferenceQueue := [], batchIntervalArmed := false }
    match inferenceCallback prompts with
    | .ok results =>
        (st1, batch.enum.map (fun p => (p.2.callerId, Settlement.resolved (results.get? p.1))),
          [prompts])
    | .error e =>
        (st1, batch.map (fun it => (it.callerId, Settlement.rejected e)), [prompts])

/-- `queueInference` (BatteryOptimizationService.ts lines 152-176): push the new
item at the end of the queue; flush immediately when the queue reaches
`maxBatchSize`; otherwise arm the wait timer if it is not already armed (an
arrival never re-arms an existing timer). -/
def queueInference (st : BatchQueueState) (prompt : String) (callerId : Nat)
    (config : BatchConfig)
    (inferenceCallback : List String → Except String (List String)) :
    BatchQueueState × List (Nat × Settlement) × List (List String) :=
  let st0 : BatchQueueState :=
    { st with pendingInferenceQueue := st.pendingInferenceQueue ++ [⟨prompt, callerId⟩] }
  if st0.pendingInferenceQueue.length ≥ config.maxBatchSize then
    processBatch st0 inferenceCallback
  else if st0.batchIntervalArmed = false then
    ({ st0 with batchIntervalArmed := true }, [], [])
  else
    (st0, [], [])

end Battery

namespace CWM

theorem manageWindow_of_le {s : ManagerState} (h : s.activeWindow.length ≤ 10) :
    manageWindow s = s := by
  simp [manageWindow, SLIDING_WINDOW_SIZE, Nat.not_lt.mpr h]

/-- Closed form of the manager state reached from empty by a sequence of
`addMessage` calls: the active window holds the last (up to) 10 messages and the
archive holds everything older, both in arrival order. -/
theorem foldl_addMessage_closed_form (ms : List Message) :
    ms.foldl addMessage initialManager =
      ⟨ms.drop (ms.length - 10), ms.take (ms.length - 10)⟩ := by
  induction ms using List.reverseRecOn with
  | nil => rfl
  | append_singleton l m ih =>
    rw [List.foldl_append, List.foldl_cons, List.foldl_nil, ih]
    show manageWindow _ = _
    rcases Nat.lt_or_ge l.length 10 with hlt | hge
    · have h1 : l.length - 10 = 0 := by omega
      have h2 : (l ++ [m]).length - 10 = 0 := by simp; omega
      have hle : (l.drop (l.length - 10) ++ [m]).length ≤ 10 := by
        simp [h1]; omega
      rw [manageWindow_of_le hle, h1, h2]
      simp
    · have hdl : (l.drop (l.length - 10)).length = 10 := by simp; omega
      have hcond : ((l.drop (l.length - 10)) ++ [m]).length > 10 := by simp [hdl]
      have hn : ((l.drop (l.length - 10)) ++ [m]).length - 10 = 1 := by simp [hdl]
      simp only [manageWindow, SLIDING_WINDOW_SIZE, hcond, if_pos, hn]
      have hlm : (l ++ [m]).length - 10 = (l.length - 10) + 1 := by simp; omega
      simp only [ManagerState.mk.injEq]
      constructor
      · rw [List.drop_append_of_le_length (by omega),
          List.drop_drop, hlm, List.drop_append_of_le_length (by omega)]
      · rw [List.take_append_of_le_length (by omega), hlm,
          List.take_append_of_le_length (by omega), ← List.take_add]

/-- Claim C1: starting from an empty manager, after any N > 10 `addMessage` calls the
active window is exactly the 10 most recent messages in arrival order, the archive is
exactly the N - 10 oldest messages in arrival order, and after every prefix of the
call sequence the active window has at most 10 messages. -/
theorem sliding_window_archives_oldest (ms : List Message) (hN : 10 < ms.length) :
    (ms.foldl addMessage initialManager).activeWindow = ms.drop (ms.length - 10) ∧
    (ms.foldl addMessage initialManager).archivedMessages = ms.take (ms.length - 10) ∧
    (ms.foldl addMessage initialManager).activeWindow.length = 10 ∧
    ∀ n : Nat,
      ((ms.take n).foldl addMessage initialManager).activeWindow.length ≤ 10 := by
  refine ⟨?_, ?_, ?_, ?_⟩
  · rw [foldl_addMessage_closed_form]
  · rw [foldl_addMessage_closed_form]
  · rw [foldl_addMessage_closed_form]
    simp
    omega
  · intro n
    rw [foldl_addMessage_closed_form]
    simp
    omega

end CWM

namespace CWM

/-- Claim C10: `getActiveWindow` and `getArchivedMessages` hand out fresh arrays.
The returned identifier differs from both private identifiers, the returned array
holds a copy of the private contents, and after any caller write to the returned
array both private arrays are unchanged, so a subsequent getter call still
observes the original messages. -/
theorem getters_return_fresh_copies (s : ManagerRefs)
    (hA : s.activeId < s.heap.next) (hB : s.archivedId < s.heap.next) :
    ((getActiveWindow s).1 ≠ s.activeId ∧ (getActiveWindow s).1 ≠ s.archivedId ∧
      (getActiveWindow s).2.heap.store (getActiveWindow s).1 = s.heap.store s.activeId ∧
      ∀ v : List Message,
        (writeArray (getActiveWindow s).2.heap (getActiveWindow s).1 v).store s.activeId
            = s.heap.store s.activeId ∧
        (writeArray (getActiveWindow s).2.heap (getActiveWindow s).1 v).store s.archivedId
            = s.heap.store s.archivedId) ∧
    ((getArchivedMessages s).1 ≠ s.activeId ∧ (getArchivedMessages s).1 ≠ s.archivedId ∧
      (getArchivedMessages s).2.heap.store (getArchivedMessages s).1
          = s.heap.store s.archivedId ∧
      ∀ v : List Message,
        (writeArray (getArchivedMessages s).2.heap (getArchivedMessages s).1 v).store s.activeId
            = s.heap.store s.activeId ∧
        (writeArray (getArchivedMessages s).2.heap (getArchivedMessages s).1 v).store
            s.archivedId = s.heap.store s.archivedId) := by
  have ha : s.activeId ≠ s.heap.next := Nat.ne_of_lt hA
  have hb : s.archivedId ≠ s.heap.next := Nat.ne_of_lt hB
  refine ⟨⟨?_, ?_, ?_, ?_⟩, ?_, ?_, ?_, ?_⟩ <;>
    first
      | (intro v
         constructor <;>
           simp [getActiveWindow, getArchivedMessages, allocCopy, writeArray, ha, hb,
             Ne.symm ha, Ne.symm hb])
      | simp [getActiveWindow, getArchivedMessages, allocCopy, writeArray, ha, hb,
          Ne.symm ha, Ne.symm hb]

end CWM

namespace Battery

theorem enumFrom_map_snd_comp {α β : Type} (f : α → β) :
    ∀ (n : Nat) (l : List α), (List.enumFrom n l).map (fun p => f p.2) = l.map f := by
  intro n l
  induction l generalizing n with
  | nil => rfl
  | cons a t ih => simp [List.enumFrom, ih]

/-- Claim C9: flushing a non-empty pending queue invokes the batch executor exactly
once, on the full batch in arrival order; every queued caller is settled from that
one outcome by its index; if the executor fails, every member is rejected with that
error and no member resolves. -/
theorem processBatch_settles_all (st : BatchQueueState)
    (exec : List String → Except String (List String))
    (hne : st.pendingInferenceQueue ≠ []) :
    (processBatch st exec).2.2 = [st.pendingInferenceQueue.map (fun it => it.prompt)] ∧
    (processBatch st exec).1.pendingInferenceQueue = [] ∧
    (processBatch st exec).2.1.map Prod.fst
        = st.pendingInferenceQueue.map (fun it => it.callerId) ∧
    (∀ rs, exec (st.pendingInferenceQueue.map (fun it => it.prompt)) = .ok rs →
      (processBatch st exec).2.1
        = st.pendingInferenceQueue.enum.map
            (fun p => (p.2.callerId, Settlement.resolved (rs.get? p.1)))) ∧
    (∀ e, exec (st.pendingInferenceQueue.map (fun it => it.prompt)) = .error e →
      (processBatch st exec).2.1
          = st.pendingInferenceQueue.map (fun it => (it.callerId, Settlement.rejected e)) ∧
      ∀ cid v, (cid, Settlement.resolved v) ∉ (processBatch st exec).2.1) := by
  have hlen : ¬ st.pendingInferenceQueue.length = 0 := fun h => hne (List.length_eq_zero.mp h)
  unfold processBatch
  rcases hx : exec (st.pendingInferenceQueue.map (fun it => it.prompt)) with e | rs
  all_goals simp only [if_neg hlen, hx]
  · refine ⟨by simp, by simp, by simp [List.map_map], ?_, ?_⟩
    · intro rs hx2
      exact Except.noConfusion hx2
    · intro e2 hx2
      cases hx2
      refine ⟨rfl, ?_⟩
      intro cid v hmem
      simp at hmem
  · refine ⟨by simp, by simp, ?_, ?_, ?_⟩
    · rw [List.map_map]
      exact enumFrom_map_snd_comp (fun it => it.callerId) 0 st.pendingInferenceQueue
    · intro rs2 hx2
      cases hx2
      rfl
    · intro e2 hx2
      exact Except.noConfusion hx2

end Battery

namespace IE

theorem classifyGenError_ne_concurrency (m : String) :
    classifyGenError m ≠ concurrencyMsg := by
  unfold classifyGenError
  split
  · decide
  split
  · decide
  · intro h
    have hpre : ("Generation failed: ").data <+: concurrencyMsg.data :=
      ⟨m.data, by rw [← h]; rfl⟩
    have : ¬ (("Generation failed: ").data <+: concurrencyMsg.data) := by decide
    exact this hpre

/-- Claim C2: while a generation is outstanding (the single-flight flag of an
initialized engine is set), a second `generate` call returns the concurrency
error and leaves the state untouched; when no generation is outstanding, the
call ends with the flag cleared on every exit path and is never rejected with
the concurrency error. -/
theorem generate_single_flight (s : EngineState) (input : GenInput)
    (options : InferenceOptions) (native : Except String NativeResult) (pick : Fin 3) :
    (s.isInitialized = true → s.isGenerating = true →
      generate s input options native pick = (.error concurrencyMsg, s)) ∧
    (s.isGenerating = false →
      (generate s input options native pick).2.isGenerating = false ∧
      (generate s input options native pick).1 ≠ .error concurrencyMsg) := by
  constructor
  · intro hinit hgen
    simp [generate, hinit, hgen]
  · intro hgen
    rcases hinit : s.isInitialized with _ | _
    · constructor
      · simp [generate, hinit, hgen]
      · simp [generate, hinit]
        decide
    · refine ⟨?_, ?_⟩ <;>
        (simp only [generate]
         rw [if_neg (by simp [hinit]), if_neg (by simp [hgen])]
         rcases hbody : generateBody { s with isGenerating := true } input options native pick
           with e | out <;> simp only [hbody]) <;>
        first
        | rfl
        | (split <;>
            first
            | rfl
            | (simp
               done)
            | (intro hEq
               injection hEq with hEq2
               exact classifyGenError_ne_concurrency e hEq2))
        | (simp
           done)

/-- Concrete instantiation of `generate_single_flight`: with the flag set the
call is rejected with the concurrency error and the state is returned verbatim;
on an idle engine the same call succeeds and clears the flag. -/
theorem generate_single_flight_witness :
    generate ⟨some ("m"), true, true, true⟩ (.str ("hi")) {} (.ok (.plain ("ok"))) 0
        = (.error concurrencyMsg, ⟨some ("m"), true, true, true⟩) ∧
    (generate ⟨some ("m"), true, false, true⟩ (.str ("hi")) {}
        (.ok (.plain ("ok"))) 0).2.isGenerating = false ∧
    (generate ⟨some ("m"), true, false, true⟩ (.str ("hi")) {}
        (.ok (.plain ("ok"))) 0).1 ≠ .error concurrencyMsg := by
  refine ⟨?_, ?_, ?_⟩
  · exact (generate_single_flight ⟨some ("m"), true, true, true⟩ (.str ("hi")) {}
      (.ok (.plain ("ok"))) 0).1 rfl rfl
  · exact ((generate_single_flight ⟨some ("m"), true, false, true⟩ (.str ("hi")) {}
      (.ok (.plain ("ok"))) 0).2 rfl).1
  · exact ((generate_single_flight ⟨some ("m"), true, false, true⟩ (.str ("hi")) {}
      (.ok (.plain ("ok"))) 0).2 rfl).2

theorem normalizeResult_ok {r : NativeResult} {t : String}
    (h : normalizeResult r = .ok t) :
    t = rawText r ∧ (jsTrim (rawText r)).length ≠ 0 := by
  cases r <;> simp only [normalizeResult, rawText] at h ⊢ <;> split at h <;>
    first
    | exact Except.noConfusion h
    | (rename_i hc
       injection h with h2
       subst h2
       first
       | exact ⟨rfl, hc⟩
       | exact ⟨rfl, hc.2.2⟩)

theorem generateBody_ok_real {s : EngineState} {input : GenInput}
    {options : InferenceOptions} {native : Except String NativeResult} {pick : Fin 3}
    {out : GenOutput} (hreal : s.modelPath ≠ some ("mock"))
    (h : generateBody s input options native pick = .ok out) :
    ∃ t, out = .real t := by
  unfold generateBody at h
  rw [if_neg hreal] at h
  repeat
    first
    | exact Except.noConfusion h
    | split at h
    | dsimp only at h
  all_goals
    first
    | (injection h with h2
       exact ⟨_, h2.symm⟩)
    | (exfalso
       obtain ⟨he, hne⟩ := normalizeResult_ok (by assumption)
       subst he
       simp_all)

theorem generateBody_error_of_empty {s : EngineState} {input : GenInput}
    {options : InferenceOptions} {r : NativeResult} {pick : Fin 3}
    (hreal : s.modelPath ≠ some ("mock")) (hempty : jsTrim (rawText r) = "") :
    ∃ e, generateBody s input options (.ok r) pick = .error e := by
  unfold generateBody
  rw [if_neg hreal]
  rcases hnorm : normalizeResult r with e | response
  · simp only [hnorm]
    repeat
      first
      | exact ⟨_, rfl⟩
      | split
      | dsimp only
  · obtain ⟨_, hne⟩ := normalizeResult_ok hnorm
    rw [hempty] at hne
    simp at hne

/-- Claim C3: on a non-mock engine, a native result whose text is empty or
whitespace-only makes `generate` fail with an error, and a successful
`generate` never returns synthetic (mock) output. -/
theorem real_engine_never_mock (s : EngineState) (input : GenInput)
    (options : InferenceOptions) (native : Except String NativeResult) (pick : Fin 3)
    (hreal : s.modelPath ≠ some ("mock")) :
    ((∃ r, native = .ok r ∧ jsTrim (rawText r) = "") →
      ∃ e, (generate s input options native pick).1 = .error e) ∧
    (∀ out, (generate s input options native pick).1 = .ok out →
      ∀ m, out ≠ GenOutput.mock m) := by
  have hreal2 : ({ s with isGenerating := true } : EngineState).modelPath ≠ some ("mock") :=
    hreal
  constructor
  · rintro ⟨r, hr, hempty⟩
    subst hr
    unfold generate
    split
    · exact ⟨_, rfl⟩
    split
    · exact ⟨_, rfl⟩
    · rcases hbody : generateBody { s with isGenerating := true } input options (.ok r) pick
        with e | out
      · simp only [hbody]
        exact ⟨_, rfl⟩
      · obtain ⟨e, he⟩ := @generateBody_error_of_empty _ input options _ pick hreal2 hempty
        rw [he] at hbody
        exact Except.noConfusion hbody
  · intro out hout m
    unfold generate at hout
    split at hout
    · exact Except.noConfusion hout
    split at hout
    · exact Except.noConfusion hout
    · rcases hbody : generateBody { s with isGenerating := true } input options native pick
        with e | out2
      · simp only [hbody] at hout
        exact Except.noConfusion hout
      · simp only [hbody] at hout
        injection hout with h2
        obtain ⟨t, ht⟩ := generateBody_ok_real hreal2 hbody
        rw [← h2, ht]
        simp

/-- Concrete instantiation of `real_engine_never_mock`: a whitespace-only native
string on a real engine makes `generate` fail, and a successful call on the
same engine returns real (non-mock) output. -/
theorem real_engine_never_mock_witness :
    (∃ e, (generate ⟨some ("real"), true, false, true⟩ (.str ("hi")) {}
      (.ok (.plain ("   "))) 0).1 = .error e) ∧
    (∀ m, GenOutput.real ("An answer.") ≠ GenOutput.mock m) := by
  constructor
  · exact (real_engine_never_mock ⟨some ("real"), true, false, true⟩ (.str ("hi")) {}
      (.ok (.plain ("   "))) 0 (by decide)).1 ⟨.plain ("   "), rfl, by decide⟩
  · intro m
    exact (real_engine_never_mock ⟨some ("real"), true, false, true⟩ (.str ("hi")) {}
      (.ok (.plain ("  An answer.  "))) 0 (by decide)).2 (.real ("An answer."))
      (by decide) m

/-- Claim C4 (code bug): `cleanResponse` is documented, and specified, to strip
end markers only at the very end of the text and to leave all other characters
intact; because the alternation bar of `<|endoftext|>` is not escaped in the
`new RegExp` pattern, the replace removes every `<` of the text.  On `"a < b"`
nothing should change per the claim, but the code yields `"a  b"`. -/
theorem cleanResponse_corrupts_inner_text :
    cleanResponse ("a < b") = "a  b" ∧ cleanResponse ("a < b") ≠ "a < b" := by
  constructor
  · decide
  · decide

end IE

namespace IE

theorem lastIdxSat_succ (p : Nat → Bool) (n : Nat) :
    lastIdxSat p (n + 1) = if p n then some n else lastIdxSat p n := by
  unfold lastIdxSat
  rw [List.range_succ, List.foldl_append, List.foldl_cons, List.foldl_nil]

theorem lastIdxSat_none_iff (p : Nat → Bool) (n : Nat) :
    lastIdxSat p n = none ↔ ∀ i, i < n → ¬ p i = true := by
  induction n with
  | zero => simp [lastIdxSat]
  | succ n ih =>
    rw [lastIdxSat_succ]
    rcases hp : p n with _ | _
    · rw [if_neg (by simp)]
      rw [ih]
      constructor
      · intro h i hi
        rcases Nat.lt_succ_iff_lt_or_eq.mp hi with h2 | h2
        · exact h i h2
        · subst h2
          simp [hp]
      · intro h i hi
        exact h i (Nat.lt_succ_of_lt hi)
    · rw [if_pos rfl]
      constructor
      · intro h
        exact absurd h (by simp)
      · intro h
        exact absurd hp (h n (Nat.lt_succ_self n))

theorem lastIdxSat_some (p : Nat → Bool) (n : Nat) (k : Nat)
    (h : lastIdxSat p n = some k) :
    p k = true ∧ k < n ∧ ∀ i, k < i → i < n → ¬ p i = true := by
  induction n with
  | zero => exact absurd h (by simp [lastIdxSat])
  | succ n ih =>
    rw [lastIdxSat_succ] at h
    rcases hp : p n with _ | _
    · rw [if_neg (by simp [hp])] at h
      obtain ⟨h1, h2, h3⟩ := ih h
      refine ⟨h1, Nat.lt_succ_of_lt h2, ?_⟩
      intro i hki hin
      rcases Nat.lt_succ_iff_lt_or_eq.mp hin with h4 | h4
      · exact h3 i hki h4
      · subst h4
        simp [hp]
    · rw [if_pos hp] at h
      injection h with h2
      subst h2
      exact ⟨hp, Nat.lt_succ_self _, fun i hki hin => by omega⟩

theorem dropWhile_head_false {p : Char → Bool} {l : List Char} {c : Char}
    {rest : List Char} (h : l.dropWhile p = c :: rest) : p c = false := by
  have := List.head_dropWhile_not p l
  rw [h] at this
  simpa using this (by simp)

/-- The hard-cut regex removal of the source agrees, on trimmed text, with the
amended-claim formulation: the final word is removed exactly when the trimmed
cut still contains whitespace. -/
theorem dropTrailingWordRun_trimC (u : List Char) :
    dropTrailingWordRun (trimC u) =
      if (trimC u).any isJsWS
      then (((trimC u).reverse.dropWhile (fun c => !(isJsWS c))).dropWhile isJsWS).reverse
      else trimC u := by
  have hrev : (trimC u).reverse = (u.dropWhile isJsWS).reverse.dropWhile isJsWS := by
    unfold trimC
    rw [List.reverse_reverse]
  rcases hr : (trimC u).reverse with _ | ⟨d, r2⟩
  · have ht : trimC u = [] := by
      have := congrArg List.reverse hr
      rwa [List.reverse_reverse] at this
    rw [ht]
    simp [dropTrailingWordRun]
  · have hd : isJsWS d = false := dropWhile_head_false (hrev ▸ hr)
    unfold dropTrailingWordRun
    rw [hr]
    have hw : (d :: r2).takeWhile (fun c => !(isJsWS c))
        = d :: r2.takeWhile (fun c => !(isJsWS c)) :=
      List.takeWhile_cons_of_pos (by simp [hd])
    rcases hrest : (d :: r2).dropWhile (fun c => !(isJsWS c)) with _ | ⟨x, xs⟩
    · have hall := List.dropWhile_eq_nil_iff.mp hrest
      have hany : (trimC u).any isJsWS = false := by
        rcases hA : (trimC u).any isJsWS with _ | _
        · rfl
        · obtain ⟨a, ha, hwa⟩ := List.any_eq_true.mp hA
          have hmem : a ∈ (d :: r2) := by
            rw [← hr]
            exact List.mem_reverse.mpr ha
          have := hall a hmem
          simp [hwa] at this
      simp [hw, hrest, hany]
    · have hany : (trimC u).any isJsWS = true := by
        have hx : isJsWS x = true := by simpa using dropWhile_head_false hrest
        refine List.any_eq_true.mpr ⟨x, ?_, hx⟩
        have hmem : x ∈ (d :: r2) := (List.dropWhile_sublist _).subset (by rw [hrest]; simp)
        rw [← List.mem_reverse, hr]
        exact hmem
      simp [hw, hrest, hany]

end IE

namespace IE

theorem sentScan_to_Q {cs : List Char} {B i : Nat} (h : sentScanPred cs B i = true) :
    SentEndAt cs (i + 2) = true ∧ i + 2 ≤ B := by
  unfold sentScanPred at h
  unfold SentEndAt
  simp only [Bool.and_eq_true, decide_eq_true_eq] at h ⊢
  obtain ⟨⟨⟨h1, h2⟩, h3⟩, h4⟩ := h
  refine ⟨⟨⟨⟨by omega, by omega⟩, ?_⟩, ?_⟩, h4⟩
  · simpa using h2
  · rw [show i + 2 - 1 = i + 1 by omega]
    exact h3

theorem Q_to_sentScan {cs : List Char} {B k : Nat} (h1 : SentEndAt cs k = true)
    (h2 : k ≤ B) : 2 ≤ k ∧ k ≤ cs.length ∧ sentScanPred cs B (k - 2) = true := by
  unfold SentEndAt at h1
  unfold sentScanPred
  simp only [Bool.and_eq_true, decide_eq_true_eq] at h1 ⊢
  obtain ⟨⟨⟨hk2, hkl⟩, hp⟩, hw⟩ := h1
  refine ⟨hk2, hkl, ⟨⟨by omega, hp⟩, ?_⟩, by omega⟩
  rw [show k - 2 + 1 = k - 1 by omega]
  exact hw

theorem findGreatestA_none {cs : List Char} {B : Nat}
    (h : lastIdxSat (sentScanPred cs B) cs.length = none) :
    Nat.findGreatest (fun k => SentEndAt cs k = true ∧ k ≤ B) B = 0 := by
  rw [Nat.findGreatest_eq_zero_iff]
  intro n hn0 hnB hQ
  obtain ⟨hk2, hkl, hscan⟩ := Q_to_sentScan hQ.1 hQ.2
  exact absurd hscan ((lastIdxSat_none_iff _ _).mp h (n - 2) (by omega))

theorem findGreatestA_some {cs : List Char} {B i : Nat}
    (h : lastIdxSat (sentScanPred cs B) cs.length = some i) :
    Nat.findGreatest (fun k => SentEndAt cs k = true ∧ k ≤ B) B = i + 2 := by
  obtain ⟨h1, h2, h3⟩ := lastIdxSat_some _ _ _ h
  obtain ⟨hQ, hB⟩ := sentScan_to_Q h1
  rw [Nat.findGreatest_eq_iff]
  refine ⟨hB, fun _ => ⟨hQ, hB⟩, ?_⟩
  intro n hgt hle hQn
  obtain ⟨hk2, hkl, hscan⟩ := Q_to_sentScan hQn.1 hQn.2
  exact absurd hscan (h3 (n - 2) (by omega) (by omega))

theorem findGreatestB_none {cs : List Char} {B : Nat} (hB : B < cs.length)
    (h : lastIdxSat (spaceScanPred cs B) cs.length = none) :
    Nat.findGreatest (fun j => cs.getD j 'x' = ' ' ∧ j ≤ B) B = 0 := by
  rw [Nat.findGreatest_eq_zero_iff]
  intro n hn0 hnB hQ
  have hscan : spaceScanPred cs B n = true := by
    unfold spaceScanPred
    simp only [Bool.and_eq_true, decide_eq_true_eq]
    exact ⟨hQ.1, hQ.2⟩
  exact absurd hscan ((lastIdxSat_none_iff _ _).mp h n (by omega))

theorem findGreatestB_some {cs : List Char} {B j : Nat} (hB : B < cs.length)
    (h : lastIdxSat (spaceScanPred cs B) cs.length = some j) :
    Nat.findGreatest (fun j2 => cs.getD j2 'x' = ' ' ∧ j2 ≤ B) B = j := by
  obtain ⟨h1, h2, h3⟩ := lastIdxSat_some _ _ _ h
  have hj : cs.getD j 'x' = ' ' ∧ j ≤ B := by
    unfold spaceScanPred at h1
    simpa using h1
  rw [Nat.findGreatest_eq_iff]
  refine ⟨hj.2, fun _ => hj, ?_⟩
  intro n hgt hle hQ
  have hscan : spaceScanPred cs B n = true := by
    unfold spaceScanPred
    simp only [Bool.and_eq_true, decide_eq_true_eq]
    exact ⟨hQ.1, hQ.2⟩
  exact absurd hscan (h3 n hgt (by omega))

/-- Claim C5, amended: for a non-empty response and positive `maxTokens`, the
source truncation equals the amended claim procedure (rules (a)-(c) read with a
final trim of every cut, and with the hard-cut word removal applying only when
the trimmed cut still contains whitespace). -/
theorem truncate_matches_amended_spec (response : String) (maxTokens : Nat)
    (hne : response ≠ "") (hpos : 0 < maxTokens) :
    truncateAtSentenceBoundary response maxTokens = specTruncAmended response maxTokens := by
  have hdata : response.data ≠ [] := by
    intro h
    exact hne (String.ext h)
  have hlen0 : ¬ response.data.length = 0 := fun h => hdata (List.length_eq_zero.mp h)
  unfold truncateAtSentenceBoundary specTruncAmended
  rw [if_neg hlen0]
  by_cases hest : (response.data.length + 3) / 4 ≤ maxTokens
  · rw [if_pos hest, if_pos hest]
  · have hgt : response.data.length > maxTokens * 4 := by omega
    rw [if_neg hest, if_neg hest, if_pos hgt]
    rcases hscanA : lastIdxSat (sentScanPred response.data (maxTokens * 4))
        response.data.length with _ | i
    · simp only [findGreatestA_none hscanA]
      rw [if_neg (by omega)]
      rcases hscanB : lastIdxSat (spaceScanPred response.data (maxTokens * 4))
          response.data.length with _ | j
      · simp only [findGreatestB_none hgt hscanB]
        rw [if_neg (show ¬ 0 * 2 ^ 52 > flMul07num (maxTokens * 4) by omega)]
        rw [dropTrailingWordRun_trimC]
        split <;> rfl
      · simp only [findGreatestB_some hgt hscanB]
        by_cases hcond : j * 2 ^ 52 > flMul07num (maxTokens * 4)
        · rw [if_pos hcond, if_pos hcond]
        · rw [if_neg hcond, if_neg hcond]
          rw [dropTrailingWordRun_trimC]
          split <;> rfl
    · simp only [findGreatestA_some hscanA]
      rw [if_pos (by omega)]

/-- Concrete instantiation of `truncate_matches_amended_spec`, together with the
concrete value both sides take (a rule-(b) word-boundary cut). -/
theorem truncate_matches_amended_spec_witness :
    truncateAtSentenceBoundary ("One two. Three four five six seven.") 2
        = specTruncAmended ("One two. Three four five six seven.") 2 ∧
    truncateAtSentenceBoundary ("One two. Three four five six seven.") 2 = "One two." := by
  constructor
  · exact truncate_matches_amended_spec ("One two. Three four five six seven.") 2
      (by decide) (by decide)
  · decide

set_option maxRecDepth 8000 in
set_option maxHeartbeats 1000000 in
/-- Claim C5 as literally stated fails on the code, once for each amendment:
(1) the code trims the rule-(a) cut while the claim keeps it verbatim;
(2) at `maxTokens = 45` the space at index 126 satisfies the code's IEEE test
`126 > 180 * 0.7 = 125.99999999999999`, so the code cuts at the word boundary,
while the claim's exact `0.7 x 180 = 126` sends it to the hard-cut rule;
(3) on a single word the code keeps the trimmed hard cut whole while the
claim's rule (c) removes the trailing word, leaving the empty string. -/
theorem truncate_claim_counterexample :
    (truncateAtSentenceBoundary truncCounterA 3 = "Hi there." ∧
      specTruncClaim truncCounterA 3 = " Hi there. " ∧
      truncateAtSentenceBoundary truncCounterA 3 ≠ specTruncClaim truncCounterA 3) ∧
    (truncateAtSentenceBoundary truncCounterB 45 = String.mk (List.replicate 126 'a') ∧
      specTruncClaim truncCounterB 45
        = String.mk (List.replicate 126 'a' ++ [' '] ++ List.replicate 24 'b' ++ ['\t']) ∧
      truncateAtSentenceBoundary truncCounterB 45 ≠ specTruncClaim truncCounterB 45) ∧
    (truncateAtSentenceBoundary truncCounterC 3 = "aaaaaaaaaaaa" ∧
      specTruncClaim truncCounterC 3 = "" ∧
      truncateAtSentenceBoundary truncCounterC 3 ≠ specTruncClaim truncCounterC 3) := by
  exact ⟨⟨by decide, by decide, by decide⟩,
    ⟨by decide, by decide, by decide⟩,
    ⟨by decide, by decide, by decide⟩⟩

end IE

namespace CWM

theorem scoreMsg_ok {q : List Real} {m : Message} {p : Message × Real}
    (h : scoreMsg q m = .ok p) :
    p.1 = m ∧ cosineSimilarity q (m.embedding.getD []) = .ok p.2 := by
  unfold scoreMsg at h
  rcases hc : cosineSimilarity q (m.embedding.getD []) with e | sc
  · rw [hc] at h
    exact Except.noConfusion h
  · rw [hc] at h
    injection h with h2
    subst h2
    exact ⟨rfl, by simpa using hc⟩

theorem mapME_scoreMsg_ok {q : List Real} :
    ∀ {l : List Message} {scored : List (Message × Real)},
      mapME (scoreMsg q) l = .ok scored →
      scored.map Prod.fst = l ∧
      ∀ p ∈ scored, cosineSimilarity q (p.1.embedding.getD []) = .ok p.2 := by
  intro l
  induction l with
  | nil =>
    intro scored h
    unfold mapME at h
    injection h with h2
    subst h2
    exact ⟨rfl, by simp⟩
  | cons a rest ih =>
    intro scored h
    unfold mapME at h
    rcases ha : scoreMsg q a with e | b
    · rw [ha] at h
      exact Except.noConfusion h
    · rw [ha] at h
      rcases hrest : mapME (scoreMsg q) rest with e | bs
      · rw [hrest] at h
        exact Except.noConfusion h
      · rw [hrest] at h
        injection h with h2
        subst h2
        obtain ⟨hfst, hcos⟩ := ih hrest
        obtain ⟨hb1, hb2⟩ := scoreMsg_ok ha
        refine ⟨by simp [hb1, hfst], ?_⟩
        intro p hp
        rcases List.mem_cons.mp hp with h3 | h3
        · subst h3
          rw [hb1]
          exact hb2
        · exact hcos p h3

theorem filter_orderedInsert_score (x : Real) (a : Message × Real) :
    ∀ l : List (Message × Real),
      (l.orderedInsert scoreGE a).filter (fun p => decide (p.2 = x))
        = ((a :: l).filter (fun p => decide (p.2 = x))) := by
  intro l
  induction l with
  | nil => rfl
  | cons y ys ih =>
    unfold List.orderedInsert
    split
    · rfl
    · rename_i hny
      have hlt : a.2 < y.2 := lt_of_not_le hny
      rcases hax : decide (a.2 = x) with _ | _
      · rcases hyx : decide (y.2 = x) with _ | _
        · simp only [List.filter_cons, hax, hyx, if_neg, Bool.false_eq_true, ite_false] at ih ⊢
          exact ih
        · simp only [List.filter_cons, hax, hyx, Bool.false_eq_true, ite_false, ite_true] at ih ⊢
          rw [ih]
      · have hay : a.2 = x := of_decide_eq_true hax
        have hyx : decide (y.2 = x) = false := by
          rw [decide_eq_false_iff_not]
          intro hy
          rw [hay] at hlt
          rw [hy] at hlt
          exact lt_irrefl x hlt
        simp only [List.filter_cons, hax, hyx, Bool.false_eq_true, ite_false, ite_true] at ih ⊢
        rw [ih]

theorem filter_insertionSort_score (x : Real) :
    ∀ l : List (Message × Real),
      (l.insertionSort scoreGE).filter (fun p => decide (p.2 = x))
        = l.filter (fun p => decide (p.2 = x)) := by
  intro l
  induction l with
  | nil => rfl
  | cons a rest ih =>
    show ((rest.insertionSort scoreGE).orderedInsert scoreGE a).filter _ = _
    rw [filter_orderedInsert_score]
    rw [List.filter_cons, List.filter_cons, ih]

end CWM

namespace CWM

/-- Claim C6: `retrieveRelevantContext` returns at most `topK` messages, each an
archived message carrying an embedding; the result is the `topK`-prefix of a
stable descending-by-cosine-similarity reordering of the scored archived
messages (sorted, a permutation, and with every equal-score class kept in
original archive order); and the result is empty whenever no archived message
carries an embedding. -/
theorem retrieveRelevantContext_spec (s : ManagerState) (q : List Real) (topK : Nat) :
    ((∀ m ∈ s.archivedMessages, m.embedding = none) →
      retrieveRelevantContext s q topK = .ok []) ∧
    (∀ l, retrieveRelevantContext s q topK = .ok l →
      l.length ≤ topK ∧
      (∀ m ∈ l, m ∈ s.archivedMessages ∧ m.embedding ≠ none) ∧
      ∃ scored sorted : List (Message × Real),
        scored.map Prod.fst = s.archivedMessages.filter (fun m => m.embedding.isSome) ∧
        (∀ p ∈ scored, cosineSimilarity q (p.1.embedding.getD []) = .ok p.2) ∧
        sorted.Perm scored ∧
        sorted.Sorted scoreGE ∧
        (∀ x : Real, sorted.filter (fun p => decide (p.2 = x))
          = scored.filter (fun p => decide (p.2 = x))) ∧
        l = (sorted.take topK).map Prod.fst) := by
  constructor
  · intro hall
    unfold retrieveRelevantContext
    by_cases h0 : s.archivedMessages.length = 0
    · rw [if_pos h0]
    · rw [if_neg h0]
      have hfilter : s.archivedMessages.filter (fun m => m.embedding.isSome) = [] := by
        rw [List.filter_eq_nil]
        intro m hm
        simp [hall m hm]
      rw [hfilter]
      simp
  · intro l hl
    unfold retrieveRelevantContext at hl
    split at hl
    · rename_i h0
      injection hl with h2
      subst h2
      have harch : s.archivedMessages = [] := List.length_eq_zero.mp h0
      refine ⟨by simp, by simp, [], [], ?_, by simp, List.Perm.nil, List.sorted_nil, by simp,
        by simp⟩
      rw [harch]
      rfl
    · split at hl
      · rename_i h0 hf
        injection hl with h2
        subst h2
        have hfilter : s.archivedMessages.filter (fun m => m.embedding.isSome) = [] :=
          List.length_eq_zero.mp hf
        refine ⟨by simp, by simp, [], [], ?_, by simp, List.Perm.nil, List.sorted_nil, by simp,
          by simp⟩
        rw [hfilter]
        rfl
      · rcases hmap : mapME (scoreMsg q)
            (s.archivedMessages.filter (fun m => m.embedding.isSome)) with e | scored
        · rw [hmap] at hl
          exact Except.noConfusion hl
        · rw [hmap] at hl
          injection hl with h2
          obtain ⟨hfst, hcos⟩ := mapME_scoreMsg_ok hmap
          refine ⟨?_, ?_, scored, scored.insertionSort scoreGE, hfst, hcos,
            List.perm_insertionSort scoreGE scored,
            List.sorted_insertionSort scoreGE scored,
            fun x => filter_insertionSort_score x scored, h2.symm⟩
          · rw [← h2]
            calc (((scored.insertionSort scoreGE).take topK).map Prod.fst).length
                = ((scored.insertionSort scoreGE).take topK).length := List.length_map _ _
              _ ≤ topK := List.length_take_le _ _
          · intro m hm
            rw [← h2] at hm
            obtain ⟨p, hp, hpm⟩ := List.mem_map.mp hm
            have hp2 : p ∈ scored.insertionSort scoreGE := List.mem_of_mem_take hp
            have hp3 : p ∈ scored := (List.perm_insertionSort scoreGE scored).mem_iff.mp hp2
            have hp4 : p.1 ∈ scored.map Prod.fst := List.mem_map_of_mem Prod.fst hp3
            rw [hfst] at hp4
            have := List.mem_filter.mp hp4
            rw [hpm] at this
            refine ⟨this.1, ?_⟩
            have h5 := this.2
            intro hnone
            rw [hnone] at h5
            exact Bool.noConfusion h5

/-- Concrete instantiation of `retrieveRelevantContext_spec`: an archive whose
single message has no embedding yields the empty retrieval, of length at most
3. -/
theorem retrieveRelevantContext_spec_witness :
    retrieveRelevantContext ⟨[], [msgNoEmb]⟩ [] 3 = .ok [] ∧
    ([] : List Message).length ≤ 3 := by
  have h1 := (retrieveRelevantContext_spec ⟨[], [msgNoEmb]⟩ [] 3).1
    (by
      intro m hm
      simp only [List.mem_singleton] at hm
      subst hm
      rfl)
  exact ⟨h1, ((retrieveRelevantContext_spec ⟨[], [msgNoEmb]⟩ [] 3).2 [] h1).1⟩

end CWM

namespace CWM

/-- Claim C7, amended: when a **non-empty** query embedding is supplied,
`buildContext` returns exactly the retrieved relevant archived messages followed
by the entire active sequence (and propagates a retrieval error); when no query
embedding is supplied — and likewise for the degenerate empty embedding, which
the source treats as absent — it returns exactly the active sequence. -/
theorem buildContext_spec (s : ManagerState) (query : String) :
    (∀ q : List Real, q ≠ [] →
      buildContext s query (some q)
        = (retrieveRelevantContext s q ARCHIVED_MESSAGES_TO_RETRIEVE).map
            (fun rel => rel ++ s.activeWindow)) ∧
    buildContext s query none = .ok s.activeWindow ∧
    buildContext s query (some []) = .ok s.activeWindow := by
  refine ⟨?_, rfl, rfl⟩
  intro q hq
  unfold buildContext
  simp only []
  rw [if_pos (by simpa [List.length_pos] using hq)]
  rcases hr : retrieveRelevantContext s q ARCHIVED_MESSAGES_TO_RETRIEVE with e | rel <;>
    simp [hr, Except.map]

/-- Concrete instantiation of `buildContext_spec`: with an empty archive and the
non-empty query embedding `[0]`, the context is the retrieved messages (none)
followed by the active window; with no embedding it is the active window. -/
theorem buildContext_spec_witness :
    buildContext ⟨[msgActive], []⟩ ("x") (some [(0 : Real)])
        = (retrieveRelevantContext ⟨[msgActive], []⟩ [(0 : Real)]
            ARCHIVED_MESSAGES_TO_RETRIEVE).map
            (fun rel => rel ++ ([msgActive] : List Message)) ∧
    buildContext ⟨[msgActive], []⟩ ("x") none = .ok [msgActive] := by
  exact ⟨(buildContext_spec ⟨[msgActive], []⟩ ("x")).1 [(0 : Real)] (by simp),
    (buildContext_spec ⟨[msgActive], []⟩ ("x")).2.1⟩

/-- Claim C7 as literally stated fails on the code: an empty-but-supplied query
embedding is treated as absent.  With one archived message carrying the (empty)
embedding `[]`, the claim's reading prepends that retrieved message, but
`buildContext` returns only the active window. -/
theorem buildContext_claim_counterexample :
    buildContext ⟨[msgActive], [msgEmptyEmb]⟩ ("q") (some []) = .ok [msgActive] ∧
    (retrieveRelevantContext ⟨[msgActive], [msgEmptyEmb]⟩ []
        ARCHIVED_MESSAGES_TO_RETRIEVE).map
        (fun rel => rel ++ ([msgActive] : List Message)) = .ok [msgEmptyEmb, msgActive] ∧
    buildContext ⟨[msgActive], [msgEmptyEmb]⟩ ("q") (some [])
      ≠ (retrieveRelevantContext ⟨[msgActive], [msgEmptyEmb]⟩ []
          ARCHIVED_MESSAGES_TO_RETRIEVE).map
          (fun rel => rel ++ ([msgActive] : List Message)) := by
  refine ⟨rfl, rfl, ?_⟩
  intro h
  rw [show buildContext ⟨[msgActive], [msgEmptyEmb]⟩ ("q") (some []) = .ok [msgActive] from rfl]
    at h
  rw [show (retrieveRelevantContext ⟨[msgActive], [msgEmptyEmb]⟩ []
      ARCHIVED_MESSAGES_TO_RETRIEVE).map
      (fun rel => rel ++ ([msgActive] : List Message)) = .ok [msgEmptyEmb, msgActive] from rfl]
    at h
  injection h with h2
  exact absurd (congrArg List.length h2) (by decide)

end CWM

namespace CWM

theorem incAt_length : ∀ (v : List Nat) (i : Nat), (incAt v i).length = v.length
  | [], _ => rfl
  | _ :: _, 0 => rfl
  | _ :: rest, n + 1 => by
    show (_ :: incAt rest n).length = _
    rw [List.length_cons, incAt_length rest n, List.length_cons]

theorem incAt_sum : ∀ (v : List Nat) (i : Nat), i < v.length → (incAt v i).sum = v.sum + 1
  | [], i, h => absurd h (by simp)
  | c :: rest, 0, _ => by
    show ((c + 1) :: rest).sum = _
    rw [List.sum_cons, List.sum_cons]
    omega
  | c :: rest, n + 1, h => by
    show (c :: incAt rest n).sum = _
    rw [List.sum_cons, incAt_sum rest n (by simpa using h), List.sum_cons]
    omega

theorem foldl_inc_invariant (ws : List (List Char)) :
    ∀ v : List Nat, v.length = 128 →
      (ws.foldl (fun v w => incAt v (simpleHash w % 128)) v).length = 128 ∧
      (ws.foldl (fun v w => incAt v (simpleHash w % 128)) v).sum = v.sum + ws.length := by
  induction ws with
  | nil =>
    intro v hv
    exact ⟨hv, rfl⟩
  | cons w rest ih =>
    intro v hv
    rw [List.foldl_cons]
    have hlen : (incAt v (simpleHash w % 128)).length = 128 := by
      rw [incAt_length, hv]
    obtain ⟨h1, h2⟩ := ih _ hlen
    refine ⟨h1, ?_⟩
    rw [h2, incAt_sum v _ (by rw [hv]; exact Nat.mod_lt _ (by norm_num))]
    simp
    omega

theorem bucketCounts_length (text : String) : (bucketCounts text).length = 128 :=
  (foldl_inc_invariant _ _ (by simp)).1

theorem bucketCounts_sum (text : String) :
    (bucketCounts text).sum = (jsSplitWS (text.data.map Char.toLower)).length := by
  have := (foldl_inc_invariant (jsSplitWS (text.data.map Char.toLower))
    (List.replicate 128 0) (by simp)).2
  unfold bucketCounts
  rw [this]
  simp

theorem jsSplitAux_ne_nil (n : Nat) :
    ∀ (cur cs : List Char), cs.length ≤ n → jsSplitAux cur cs ≠ [] := by
  induction n with
  | zero =>
    intro cur cs h
    have : cs = [] := List.length_eq_zero.mp (Nat.le_zero.mp h)
    subst this
    unfold jsSplitAux
    simp
  | succ n ih =>
    intro cur cs h
    rcases cs with _ | ⟨c, rest⟩
    · unfold jsSplitAux
      simp
    · unfold jsSplitAux
      split
      · simp
      · exact ih (c :: cur) rest (by simpa using Nat.le_of_succ_le_succ h)

theorem bucketCounts_sum_pos (text : String) : 1 ≤ (bucketCounts text).sum := by
  rw [bucketCounts_sum]
  have hne := jsSplitAux_ne_nil (text.data.map Char.toLower).length []
    (text.data.map Char.toLower) le_rfl
  rcases h : jsSplitWS (text.data.map Char.toLower) with _ | _
  · exact absurd h hne
  · simp

theorem exists_bucket_pos (text : String) : ∃ c ∈ bucketCounts text, 1 ≤ c := by
  by_contra hall
  push_neg at hall
  have hzero : (bucketCounts text).sum = 0 :=
    List.sum_eq_zero_iff.mpr (fun x hx => by have := hall x hx; omega)
  have := bucketCounts_sum_pos text
  omega

end CWM

namespace CWM

/-- Claim C8: `generateEmbedding` is a deterministic function of the text,
always returns a 128-dimensional vector, and for non-empty text the result has
Euclidean norm 1 (the division is guarded so that a zero norm would divide by 1
instead). -/
theorem generateEmbedding_spec (text : String) :
    (generateEmbedding text).length = 128 ∧
    (∀ t2, text = t2 → generateEmbedding text = generateEmbedding t2) ∧
    (text ≠ "" →
      Real.sqrt (((generateEmbedding text).map (fun x => x * x)).sum) = 1) := by
  refine ⟨?_, ?_, ?_⟩
  · unfold generateEmbedding
    rw [List.length_map]
    exact bucketCounts_length text
  · intro t2 h
    rw [h]
  · intro _
    obtain ⟨c, hc, hc1⟩ := exists_bucket_pos text
    have hnonneg : ∀ x ∈ (bucketCounts text).map
        (fun b => (Nat.cast b : Real) * Nat.cast b), 0 ≤ x := by
      intro x hx
      obtain ⟨b, _, hb⟩ := List.mem_map.mp hx
      rw [← hb]
      positivity
    have hS1 : (1 : Real)
        ≤ ((bucketCounts text).map (fun b => (Nat.cast b : Real) * Nat.cast b)).sum := by
      have hmem : (Nat.cast c : Real) * Nat.cast c
          ∈ (bucketCounts text).map (fun b => (Nat.cast b : Real) * Nat.cast b) :=
        List.mem_map_of_mem _ hc
      have h1c : (1 : Real) ≤ (Nat.cast c : Real) := by exact_mod_cast hc1
      have hcc : (1 : Real) ≤ (Nat.cast c : Real) * Nat.cast c := by nlinarith
      exact le_trans hcc (List.single_le_sum hnonneg _ hmem)
    have hSpos : (0 : Real)
        < ((bucketCounts text).map (fun b => (Nat.cast b : Real) * Nat.cast b)).sum :=
      lt_of_lt_of_le one_pos hS1
    have hnorm_ne : embNorm text ≠ 0 := by
      unfold embNorm
      exact ne_of_gt (Real.sqrt_pos.mpr hSpos)
    unfold generateEmbedding
    rw [if_neg hnorm_ne, List.map_map]
    have hmaps : (bucketCounts text).map
          ((fun x => x * x) ∘ (fun c => (Nat.cast c : Real) / embNorm text))
        = (bucketCounts text).map
          (fun b => ((Nat.cast b : Real) * Nat.cast b)
            * (embNorm text * embNorm text)⁻¹) := by
      rw [List.map_eq_map_iff]
      intro b _
      show ((Nat.cast b : Real) / _) * ((Nat.cast b : Real) / _) = _
      rw [div_mul_div_comm, div_eq_mul_inv]
    rw [hmaps, List.sum_map_mul_right]
    unfold embNorm
    rw [Real.mul_self_sqrt hSpos.le, mul_inv_cancel₀ (ne_of_gt hSpos), Real.sqrt_one]

/-- Concrete instantiation of `generateEmbedding_spec` at the text `"hello"`:
128 dimensions and unit norm. -/
theorem generateEmbedding_spec_witness :
    (generateEmbedding ("hello")).length = 128 ∧
    Real.sqrt (((generateEmbedding ("hello")).map (fun x => x * x)).sum) = 1 :=
  ⟨(generateEmbedding_spec ("hello")).1,
    (generateEmbedding_spec ("hello")).2.2 (by decide)⟩

end CWM

namespace CWM

/-- Concrete instantiation of `sliding_window_archives_oldest` at 11 messages:
the active window is the last 10, the archive the first 1. -/
theorem sliding_window_archives_oldest_witness :
    (msList11.foldl addMessage initialManager).activeWindow = msList11.drop 1 ∧
    (msList11.foldl addMessage initialManager).archivedMessages = msList11.take 1 ∧
    (msList11.foldl addMessage initialManager).activeWindow.length = 10 := by
  have h := sliding_window_archives_oldest msList11 (by decide)
  exact ⟨h.1, h.2.1, h.2.2.1⟩

/-- Concrete instantiation of `getters_return_fresh_copies`: both getters return
identifiers distinct from the private arrays, and a write through the returned
identifier leaves the private active array unchanged. -/
theorem getters_return_fresh_copies_witness :
    (getActiveWindow refs0).1 ≠ refs0.activeId ∧
    (getArchivedMessages refs0).1 ≠ refs0.archivedId ∧
    (writeArray (getActiveWindow refs0).2.heap (getActiveWindow refs0).1
      [msgActive]).store refs0.activeId = refs0.heap.store refs0.activeId := by
  have h := getters_return_fresh_copies refs0 (by decide) (by decide)
  exact ⟨h.1.1, h.2.2.1, (h.1.2.2.2 [msgActive]).1⟩

end CWM

namespace Battery

/-- Concrete instantiation of `processBatch_settles_all`: one queued caller, a
failing executor invoked once on the whole batch, the caller rejected with the
executor's error. -/
theorem processBatch_settles_all_witness :
    (processBatch ⟨[⟨"p", 7⟩], false⟩ (fun _ => .error ("boom"))).2.2 = [["p"]] ∧
    (processBatch ⟨[⟨"p", 7⟩], false⟩ (fun _ => .error ("boom"))).2.1
      = [(7, Settlement.rejected ("boom"))] := by
  have h := processBatch_settles_all ⟨[⟨"p", 7⟩], false⟩ (fun _ => .error ("boom"))
    (by simp)
  exact ⟨h.1, (h.2.2.2.2 ("boom") rfl).1⟩

end Battery
